import Mathlib

/-!
Shallow embedding of `src/multiregion.ts` (RoadCDN multi-region support):
the multi-region router (geographic routing, health checks, weighted origin
selection), the cross-region replicator, and the geographic cache manager.

Modelling conventions:
- JavaScript numbers are modelled as `ℚ` where fractional values occur
  (latencies, weights, random draws) and as `Nat` for timestamps/counters.
- `undefined` / absent values are modelled as `Option`.
- The router's `Map<string, Region>` is modelled as a `List Region` in
  iteration (insertion) order; `Map.get` is `List.find?` on the id.
- External effects (the health-probe `fetch`, the R2 bucket, KV) are
  parameters: a probe outcome per origin URL, a membership predicate for
  source objects, and a per-key put result.
-/

namespace RoadCDN

/-- `interface Origin` from `multiregion.ts`. -/
structure Origin where
  id : String
  url : String
  weight : ℚ
  healthy : Bool
  lastCheck : Nat
  latencyMs : ℚ
  consecutiveFailures : Nat
  deriving DecidableEq

/-- `interface Region` from `multiregion.ts`.  `fallback?` is an `Option`. -/
structure Region where
  id : String
  name : String
  code : String
  origins : List Origin
  priority : Nat
  countries : List String
  fallback : Option String
  deriving DecidableEq

/-- Reason tags of `interface RoutingDecision`. -/
inductive Reason where
  | geo | latency | failover | weighted
  deriving DecidableEq

/-- `interface RoutingDecision`.  `origin` is an `Option` because
`selectOrigin` evaluates `region.origins[0]`, which is `undefined` on an
empty list. -/
structure RoutingDecision where
  region : Region
  origin : Option Origin
  reason : Reason
  fallback : Bool
  deriving DecidableEq

instance {ε α : Type} [DecidableEq ε] [DecidableEq α] : DecidableEq (Except ε α) :=
  fun a b =>
    match a, b with
    | Except.error x, Except.error y =>
        if h : x = y then Decidable.isTrue (congrArg Except.error h)
        else Decidable.isFalse (fun hc => h (Except.error.inj hc))
    | Except.ok x, Except.ok y =>
        if h : x = y then Decidable.isTrue (congrArg Except.ok h)
        else Decidable.isFalse (fun hc => h (Except.ok.inj hc))
    | Except.error _, Except.ok _ => Decidable.isFalse (fun hc => Except.noConfusion hc)
    | Except.ok _, Except.error _ => Decidable.isFalse (fun hc => Except.noConfusion hc)

/-- `GeoCacheManager.getCacheKey(path, region)`: the composite key
`cache:${region}:${path}`. -/
def getCacheKey (path region : String) : String :=
  "cache:" ++ region ++ ":" ++ path

/-- `interface RegionHealthStatus`. -/
structure RegionHealthStatus where
  regionId : String
  healthy : Bool
  availableOrigins : Nat
  totalOrigins : Nat
  avgLatencyMs : ℚ
  lastCheck : Nat
  deriving DecidableEq

/-- Outcome of one health probe, as the `try`/`catch` of
`performHealthChecks` observes it: a response arrived and `response.ok`
held (with the measured latency), a response arrived but was not ok, or the
`fetch` threw (timeout or network failure). -/
inductive ProbeOutcome where
  | ok (latency : ℚ)
  | notOk (latency : ℚ)
  | exn
  deriving DecidableEq

/-- The per-origin body of the probe loop in `performHealthChecks`: on
success reset the failure counter and mark healthy; on a non-ok response
increment the counter and stay healthy while it is below 3; on an
exception increment the counter, mark unhealthy, and record the 9999ms
sentinel latency.  `lastCheck` is always stamped. -/
def probeOrigin (o : Origin) (outcome : ProbeOutcome) (now : Nat) : Origin :=
  match outcome with
  | ProbeOutcome.ok l =>
      { o with latencyMs := l, healthy := true, consecutiveFailures := 0,
               lastCheck := now }
  | ProbeOutcome.notOk l =>
      { o with latencyMs := l,
               consecutiveFailures := o.consecutiveFailures + 1,
               healthy := decide (o.consecutiveFailures + 1 < 3),
               lastCheck := now }
  | ProbeOutcome.exn =>
      { o with consecutiveFailures := o.consecutiveFailures + 1,
               healthy := false, latencyMs := 9999, lastCheck := now }

/-- One step of the origin loop of `performHealthChecks`: the updated
origins so far, the `healthyCount`, and the `totalLatency` accumulator.
Only probes that produced a response add their latency to `totalLatency`
(the `catch` path skips the addition), and only ok responses increment
`healthyCount`. -/
def sweepStep (outcomes : String → ProbeOutcome) (now : Nat)
    (acc : List Origin × Nat × ℚ) (o : Origin) : List Origin × Nat × ℚ :=
  let o2 := probeOrigin o (outcomes o.url) now
  match outcomes o.url with
  | ProbeOutcome.ok l => (acc.1 ++ [o2], acc.2.1 + 1, acc.2.2 + l)
  | ProbeOutcome.notOk l => (acc.1 ++ [o2], acc.2.1, acc.2.2 + l)
  | ProbeOutcome.exn => (acc.1 ++ [o2], acc.2.1, acc.2.2)

/-- The origin loop of `performHealthChecks` over one region's origins. -/
def sweepOrigins (outcomes : String → ProbeOutcome) (now : Nat)
    (os : List Origin) : List Origin × Nat × ℚ :=
  os.foldl (sweepStep outcomes now) ([], 0, 0)

/-- The per-region body of `performHealthChecks`: the region with its
origins updated, and the `RegionHealthStatus` summary recorded for it
(`avgLatencyMs` is `totalLatency / healthyCount`, or 0 when no probe
succeeded). -/
def sweepRegion (outcomes : String → ProbeOutcome) (now : Nat) (r : Region) :
    Region × RegionHealthStatus :=
  let swept := sweepOrigins outcomes now r.origins
  ({ r with origins := swept.1 },
   { regionId := r.id
     healthy := decide (0 < swept.2.1)
     availableOrigins := swept.2.1
     totalOrigins := r.origins.length
     avgLatencyMs := if 0 < swept.2.1 then swept.2.2 / (swept.2.1 : ℚ) else 0
     lastCheck := now })

/-- `MultiRegionRouter.performHealthChecks`: sweep every region; the first
component is the updated directory (the state then persisted via
`saveRegions`), the second the returned per-region status map in iteration
order. -/
def performHealthChecks (outcomes : String → ProbeOutcome) (now : Nat)
    (regions : List Region) : List Region × List (String × RegionHealthStatus) :=
  (regions.map (fun r => (sweepRegion outcomes now r).1),
   regions.map (fun r => (r.id, (sweepRegion outcomes now r).2)))

/-- `this.regions.get(id)` on the router's `Map`, in the list model:
the (unique) region with the given id, by iteration order. -/
def regionsGet (regions : List Region) (rid : String) : Option Region :=
  regions.find? (fun r => r.id == rid)

/-- `MultiRegionRouter.findRegionByCountry`: first region (in iteration
order) whose country list contains the request country. -/
def findRegionByCountry (regions : List Region) (country : String) : Option Region :=
  regions.find? (fun r => r.countries.contains country)

/-- `MultiRegionRouter.isRegionHealthy`: `region.origins.some(o => o.healthy)`. -/
def isRegionHealthy (r : Region) : Bool :=
  r.origins.any (fun o => o.healthy)

/-- `MultiRegionRouter.getAverageLatency`: mean latency of the healthy
origins; `none` models the `Infinity` returned when no origin is healthy. -/
def getAverageLatency (r : Region) : Option ℚ :=
  let healthyOrigins := r.origins.filter (fun o => o.healthy)
  if healthyOrigins.isEmpty then none
  else some ((healthyOrigins.map (fun o => o.latencyMs)).sum / healthyOrigins.length)

/-- JavaScript `<` on numbers-or-`Infinity` (`none` is `Infinity`):
`Infinity < x` is false, `x < Infinity` is true for finite `x`. -/
def latLt : Option ℚ → Option ℚ → Bool
  | some a, some b => a < b
  | some _, none => true
  | none, _ => false

/-- The `reduce` body of `findLowestLatencyRegion`:
`currentAvg < bestAvg ? current : best`. -/
def pickLat (best current : Region) : Region :=
  if latLt (getAverageLatency current) (getAverageLatency best) then current
  else best

/-- `MultiRegionRouter.findLowestLatencyRegion`: among regions with a
healthy origin, `reduce` keeping the smaller average latency (first wins
ties, since the comparison is strict). -/
def findLowestLatencyRegion (regions : List Region) : Option Region :=
  match regions.filter (fun r => isRegionHealthy r) with
  | [] => none
  | best :: rest => some (rest.foldl pickLat best)

/-- The `totalWeight` reduce in `selectOrigin`. -/
def totalWeight (os : List Origin) : ℚ :=
  os.foldl (fun sum o => sum + o.weight) 0

/-- The subtract-until-nonpositive loop in `selectOrigin`: running value
`random`, subtract each weight in order, return the first origin at which
the remainder is `≤ 0`; `none` models falling through the loop. -/
def weightedPick : List Origin → ℚ → Option Origin
  | [], _ => none
  | o :: rest, random =>
      if random - o.weight ≤ 0 then some o
      else weightedPick rest (random - o.weight)

/-- `MultiRegionRouter.selectOrigin`.  `u` is the `Math.random()` draw in
`[0,1)`; the computed draw is `u * totalWeight`.  On a region with no
healthy origin the code returns `region.origins[0]`, which is `undefined`
(here `none`) when the region has no origins at all. -/
def selectOrigin (r : Region) (u : ℚ) : Option Origin :=
  match r.origins.filter (fun o => o.healthy) with
  | [] => r.origins.head?
  | [o] => some o
  | healthyOrigins =>
      let random := u * totalWeight healthyOrigins
      match weightedPick healthyOrigins random with
      | some o => some o
      | none => healthyOrigins.head?

/-- Steps 1–2 of `MultiRegionRouter.route`: the country match and the
one-hop fallback switch.  Returns the tentative target region (possibly
`none`) and the `fallback` flag. -/
def routeTarget (regions : List Region) (country : String) : Option Region × Bool :=
  match findRegionByCountry regions country with
  | none => (none, false)
  | some r =>
      if isRegionHealthy r then (some r, false)
      else
        match r.fallback with
        | some fid => (regionsGet regions fid, true)
        | none => (some r, false)

/-- `MultiRegionRouter.route`.  `cfCountry` models `cf?.country` (the `||
'US'` default applies when it is absent); `u` is the `Math.random()` draw
used by `selectOrigin`.  The thrown `Error('No healthy regions available')`
is the `Except.error` case. -/
def route (regions : List Region) (cfCountry : Option String) (u : ℚ) :
    Except String RoutingDecision :=
  let country := cfCountry.getD "US"
  let (t, fallback) := routeTarget regions country
  let t2 := match t with
    | some r => some r
    | none => findLowestLatencyRegion regions
  match t2 with
  | none => Except.error "No healthy regions available"
  | some r =>
      Except.ok
        { region := r
          origin := selectOrigin r u
          reason := if fallback then Reason.failover else Reason.geo
          fallback := fallback }

/-- Status values of `ReplicationJob.status`. -/
inductive JobStatus where
  | pending | running | completed | failed
  deriving DecidableEq

/-- JavaScript `Math.round`: round half toward positive infinity,
`⌊q + 1/2⌋`. -/
def jsRound (q : ℚ) : ℤ := ⌊q + 1 / 2⌋

/-- The running per-job state of `CrossRegionReplicator.runReplication`:
the `completed` write counter, the last computed `progress`, and the
accumulated `errors` list. -/
structure RepAcc where
  completed : Nat
  progress : ℤ
  errors : List String
  deriving DecidableEq

/-- The body of the inner target loop of `runReplication` for one
`(path, target)` pair: attempt the put (`putRes` returns `none` on success
and the thrown error's message on failure), record a failure message if it
threw, then increment `completed` and recompute
`progress = round(completed / totalPaths * 100)` — the counter advances
whether or not the write succeeded. -/
def replPutStep (putRes : String → Option String) (totalPaths : Nat) (path : String)
    (acc : RepAcc) (target : String) : RepAcc :=
  let errors :=
    match putRes (target ++ "/" ++ path) with
    | none => acc.errors
    | some m =>
        acc.errors ++ ["Failed to replicate " ++ path ++ " to " ++ target ++ ": " ++ m]
  { completed := acc.completed + 1
    progress := jsRound (((acc.completed + 1 : Nat) : ℚ) / (totalPaths : ℚ) * 100)
    errors := errors }

/-- The body of the outer path loop of `runReplication`: a path whose
source object is absent only records `Source not found` and moves to the
next path — no write is attempted and `completed` is untouched; otherwise
every target region is written in order. -/
def replPathStep (sourceHas : String → Bool) (putRes : String → Option String)
    (sourceRegion : String) (targets : List String) (totalPaths : Nat)
    (acc : RepAcc) (path : String) : RepAcc :=
  if sourceHas (sourceRegion ++ "/" ++ path) then
    targets.foldl (replPutStep putRes totalPaths path) acc
  else
    { acc with errors := acc.errors ++ ["Source not found: " ++ path] }

/-- The terminal state of a finished replication run: the job's final
fields plus the durable-store write performed at the end. -/
structure ReplicationOutcome where
  status : JobStatus
  progress : ℤ
  errors : List String
  completedAt : Option Nat
  persistKey : String
  persistTtl : Nat
  deriving DecidableEq

/-- `CrossRegionReplicator.runReplication`, run to completion against an
object store where `sourceHas` tells whether a key holds an object and
`putRes` gives a failed put's error message (`none` on success).
`totalPaths = paths.length * targetRegions.length`; the job starts with
`progress = 0`; the final status is `failed` exactly when the errors list
is non-empty; `completedAt` is stamped and the record persisted under
`replication:<id>` with a 7-day (`86400 * 7` seconds) TTL. -/
def runReplication (id sourceRegion : String) (targetRegions paths : List String)
    (sourceHas : String → Bool) (putRes : String → Option String) (now : Nat) :
    ReplicationOutcome :=
  let totalPaths := paths.length * targetRegions.length
  let final := paths.foldl
    (replPathStep sourceHas putRes sourceRegion targetRegions totalPaths)
    ⟨0, 0, []⟩
  { status := if 0 < final.errors.length then JobStatus.failed else JobStatus.completed
    progress := final.progress
    errors := final.errors
    completedAt := some now
    persistKey := "replication:" ++ id
    persistTtl := 86400 * 7 }

/-- Specification-side view for the health sweep: the summed latency of
the probes that produced a response (ok or not); an exception contributes
nothing. -/
def respondedLatencySum (outcomes : String → ProbeOutcome) (os : List Origin) : ℚ :=
  (os.map (fun o =>
    match outcomes o.url with
    | ProbeOutcome.ok l => l
    | ProbeOutcome.notOk l => l
    | ProbeOutcome.exn => 0)).sum

/-- Specification-side view for the health sweep: how many probes returned
an ok response. -/
def okCount (outcomes : String → ProbeOutcome) (os : List Origin) : Nat :=
  (os.filter (fun o =>
    match outcomes o.url with
    | ProbeOutcome.ok _ => true
    | ProbeOutcome.notOk _ => false
    | ProbeOutcome.exn => false)).length

section SampleData

/-- A healthy sample origin (latency 10). -/
def oH : Origin := ⟨"o1", "http://o1", 1, true, 0, 10, 0⟩

/-- An unhealthy sample origin. -/
def oU : Origin := ⟨"o2", "http://o2", 1, false, 0, 20, 0⟩

/-- Sample region serving FR whose only origin is unhealthy; falls back to B. -/
def regA : Region := ⟨"A", "Region A", "a-1", [oU], 1, ["FR"], some "B"⟩

/-- Sample region with one healthy origin, matching no country. -/
def regB : Region := ⟨"B", "Region B", "b-1", [oH], 1, [], none⟩

/-- Sample region serving DE with no origins at all and no fallback. -/
def regE : Region := ⟨"E", "Region E", "e-1", [], 1, ["DE"], none⟩

/-- A healthy origin of weight 0. -/
def oW0 : Origin := ⟨"w0", "http://w0", 0, true, 0, 10, 0⟩

/-- A healthy origin of weight 5. -/
def oW5 : Origin := ⟨"w5", "http://w5", 5, true, 0, 10, 0⟩

/-- Sample region with two healthy origins of weights 0 and 5. -/
def regW : Region := ⟨"W", "Region W", "w-1", [oW0, oW5], 1, [], none⟩

/-- A healthy sample origin with no recorded failures, to be probed. -/
def oC : Origin := ⟨"c1", "http://c1", 1, true, 0, 10, 0⟩

/-- Sample region holding `oC`. -/
def regC : Region := ⟨"C", "Region C", "c-1", [oC], 1, [], none⟩

/-- A healthy sample origin whose probe will succeed with latency 10. -/
def oG1 : Origin := ⟨"g1", "http://g1", 1, true, 0, 1, 0⟩

/-- A healthy sample origin with two recorded consecutive failures, whose
probe will return a non-ok response with latency 100. -/
def oG2 : Origin := ⟨"g2", "http://g2", 1, true, 0, 1, 2⟩

/-- Sample region holding `oG1` and `oG2`. -/
def regG : Region := ⟨"G", "Region G", "g-1", [oG1, oG2], 1, [], none⟩

/-- Probe outcomes for `regG`: ok with latency 10 for `oG1`, a non-ok
response with latency 100 for everything else. -/
def outcomesG : String → ProbeOutcome := fun url =>
  if url = "http://g1" then ProbeOutcome.ok 10 else ProbeOutcome.notOk 100

/-- A put-result map whose only failing key is `t2/b`, with message `boom`. -/
def putFailT2b : String → Option String := fun key =>
  if key = "t2/b" then some "boom" else none

/-- 200 replication paths: `x` followed by 199 copies of `y`. -/
def cexPaths : List String := "x" :: List.replicate 199 "y"

/-- A source store missing exactly the key `src/x`. -/
def sourceHasNotX : String → Bool := fun key => !(key == "src/x")

/-- A source store holding exactly the key `src/b`. -/
def sourceHasOnlyB : String → Bool := fun key => key == "src/b"

end SampleData

/-- `selectOrigin` on a region with no origins at all evaluates
`region.origins[0]`, i.e. `undefined`. -/
theorem selectOrigin_empty (r : Region) (u : ℚ) (h : r.origins = []) :
    selectOrigin r u = none := by
  simp [selectOrigin, h]

/-- Claim C2: if the request country matches a region with zero healthy
origins whose declared fallback id resolves to an existing region, `route`
returns a decision for that fallback region with `fallback = true` and
`reason = 'failover'`.  No hypothesis constrains the fallback region `F`:
its own health and its own `fallback` field are never consulted, so the
fallback is followed exactly one hop. -/
theorem route_failover_one_hop (regions : List Region) (c : String) (u : ℚ)
    (R F : Region) (fid : String)
    (hfind : findRegionByCountry regions c = some R)
    (hunhealthy : isRegionHealthy R = false)
    (hfb : R.fallback = some fid)
    (hget : regionsGet regions fid = some F) :
    route regions (some c) u =
      Except.ok ⟨F, selectOrigin F u, Reason.failover, true⟩ := by
  unfold route routeTarget
  simp [hfind, hunhealthy, hfb, hget]

/-- Closed witness for the claim-C2 theorem: country FR matches `regA`
(unhealthy), whose fallback resolves to `regB`. -/
theorem route_failover_one_hop_witness :
    route [regA, regB] (some "FR") 0 =
      Except.ok ⟨regB, selectOrigin regB 0, Reason.failover, true⟩ :=
  route_failover_one_hop [regA, regB] "FR" 0 regA regB "B"
    (by decide) (by decide) (by decide) (by decide)

/-- Claim C4: when no region's country list contains the request country
and no region has a healthy origin, `route` throws
`'No healthy regions available'` instead of returning a decision. -/
theorem route_no_healthy_region_throws (regions : List Region) (c : String) (u : ℚ)
    (hfind : findRegionByCountry regions c = none)
    (hall : ∀ r ∈ regions, isRegionHealthy r = false) :
    route regions (some c) u = Except.error "No healthy regions available" := by
  have hfilter : regions.filter (fun r => isRegionHealthy r) = [] := by
    rw [List.filter_eq_nil_iff]
    intro r hr
    simp [hall r hr]
  unfold route routeTarget findLowestLatencyRegion
  simp [hfind, hfilter]

/-- Closed witness for the claim-C4 theorem: one all-unhealthy region
serving FR, queried for JP. -/
theorem route_no_healthy_region_throws_witness :
    route [regA] (some "JP") 0 = Except.error "No healthy regions available" :=
  route_no_healthy_region_throws [regA] "JP" 0 (by decide)
    (by intro r hr; fin_cases hr; decide)

/-- Claim C9: a chosen region with an empty origins list does not make
`route` fail: any successful decision whose region has no origins carries
`origin = undefined` (`none`), and in particular a country match on an
origin-less region without fallback still returns a decision. -/
theorem route_empty_origins_yields_undefined_origin :
    (∀ (regions : List Region) (cfc : Option String) (u : ℚ) (d : RoutingDecision),
        route regions cfc u = Except.ok d → d.region.origins = [] → d.origin = none) ∧
    (∀ (regions : List Region) (c : String) (u : ℚ) (R : Region),
        findRegionByCountry regions c = some R → R.origins = [] → R.fallback = none →
        route regions (some c) u = Except.ok ⟨R, none, Reason.geo, false⟩) := by
  constructor
  · intro regions cfc u d hok hempty
    have horigin : d.origin = selectOrigin d.region u := by
      unfold route at hok
      dsimp only at hok
      rcases hrt : routeTarget regions (cfc.getD "US") with ⟨t, fb⟩
      rw [hrt] at hok
      dsimp only at hok
      cases t with
      | none =>
          cases hL : findLowestLatencyRegion regions with
          | none => rw [hL] at hok; exact absurd hok (by simp)
          | some r => rw [hL] at hok; injection hok with hd; rw [← hd]
      | some r => injection hok with hd; rw [← hd]
    rw [horigin]
    exact selectOrigin_empty d.region u hempty
  · intro regions c u R hfind hempty hfb
    have hunhealthy : isRegionHealthy R = false := by
      simp [isRegionHealthy, hempty]
    unfold route routeTarget
    simp [hfind, hunhealthy, hfb, selectOrigin_empty R u hempty]

/-- Closed witness for the claim-C9 theorem: country DE matches the
origin-less `regE`. -/
theorem route_empty_origins_yields_undefined_origin_witness :
    route [regE] (some "DE") 0 = Except.ok ⟨regE, none, Reason.geo, false⟩ :=
  route_empty_origins_yields_undefined_origin.2 [regE] "DE" 0 regE
    (by decide) (by decide) (by decide)

/-- The JS `<` with `Infinity` is irreflexive. -/
theorem latLt_irrefl (a : Option ℚ) : latLt a a = false := by
  cases a <;> simp [latLt]

/-- Negated-`<` is transitive for the JS order with `Infinity`. -/
theorem latLt_neg_trans (a b c : Option ℚ)
    (hab : latLt a b = false) (hbc : latLt b c = false) : latLt a c = false := by
  cases a <;> cases b <;> cases c <;>
    simp_all [latLt] <;> linarith

/-- From `c < b` and `¬ (c < m)` conclude `¬ (b < m)` in the JS order. -/
theorem latLt_neg_of_lt (b c m : Option ℚ)
    (hcb : latLt c b = true) (hcm : latLt c m = false) : latLt b m = false := by
  cases b <;> cases c <;> cases m <;>
    simp_all [latLt] <;> linarith

/-- The `reduce` of `findLowestLatencyRegion` returns its seed or a list
element. -/
theorem foldl_pickLat_mem :
    ∀ (t : List Region) (b : Region), t.foldl pickLat b = b ∨ t.foldl pickLat b ∈ t := by
  intro t
  induction t with
  | nil => intro b; left; rfl
  | cons c t ih =>
      intro b
      rcases ih (pickLat b c) with h | h
      · by_cases hc : latLt (getAverageLatency c) (getAverageLatency b) = true
        · have hp : pickLat b c = c := by simp [pickLat, hc]
          right
          rw [List.foldl_cons, h, hp]
          exact List.mem_cons_self c t
        · have hp : pickLat b c = b := by simp [pickLat, hc]
          left
          rw [List.foldl_cons, h, hp]
      · right
        rw [List.foldl_cons]
        exact List.mem_cons_of_mem c h

/-- The `reduce` of `findLowestLatencyRegion` never ends strictly above its
seed's average latency. -/
theorem foldl_pickLat_le_seed :
    ∀ (t : List Region) (b : Region),
      latLt (getAverageLatency b) (getAverageLatency (t.foldl pickLat b)) = false := by
  intro t
  induction t with
  | nil => intro b; exact latLt_irrefl _
  | cons c t ih =>
      intro b
      rw [List.foldl_cons]
      by_cases hc : latLt (getAverageLatency c) (getAverageLatency b) = true
      · have hp : pickLat b c = c := by simp [pickLat, hc]
        have hcm := ih (pickLat b c)
        rw [hp] at hcm
        rw [hp]
        exact latLt_neg_of_lt _ _ _ hc hcm
      · have hc' : latLt (getAverageLatency c) (getAverageLatency b) = false :=
          Bool.eq_false_iff.mpr hc
        have hp : pickLat b c = b := by simp [pickLat, hc']
        have hbm := ih (pickLat b c)
        rw [hp] at hbm
        rw [hp]
        exact hbm

/-- No element fed to the `reduce` of `findLowestLatencyRegion` has a
strictly smaller average latency than its result. -/
theorem foldl_pickLat_min :
    ∀ (t : List Region) (b x : Region), x ∈ t →
      latLt (getAverageLatency x) (getAverageLatency (t.foldl pickLat b)) = false := by
  intro t
  induction t with
  | nil => intro b x hx; cases hx
  | cons c t ih =>
      intro b x hx
      rw [List.foldl_cons]
      rcases List.mem_cons.mp hx with hxc | hxt
      · by_cases hc : latLt (getAverageLatency c) (getAverageLatency b) = true
        · have hp : pickLat b c = c := by simp [pickLat, hc]
          have h1 := foldl_pickLat_le_seed t (pickLat b c)
          rw [hp] at h1
          rw [hp, hxc]
          exact h1
        · have hc' : latLt (getAverageLatency c) (getAverageLatency b) = false :=
            Bool.eq_false_iff.mpr hc
          have hp : pickLat b c = b := by simp [pickLat, hc']
          have h1 := foldl_pickLat_le_seed t (pickLat b c)
          rw [hp] at h1
          rw [hp, hxc]
          exact latLt_neg_trans _ _ _ hc' h1
      · exact ih (pickLat b c) x hxt

/-- `findLowestLatencyRegion` returns a healthy member of the directory
whose average latency no healthy region strictly beats. -/
theorem findLowestLatencyRegion_spec (regions : List Region) (L : Region)
    (h : findLowestLatencyRegion regions = some L) :
    L ∈ regions ∧ isRegionHealthy L = true ∧
      ∀ r ∈ regions, isRegionHealthy r = true →
        latLt (getAverageLatency r) (getAverageLatency L) = false := by
  unfold findLowestLatencyRegion at h
  cases hf : regions.filter (fun r => isRegionHealthy r) with
  | nil => rw [hf] at h; exact absurd h (by simp)
  | cons best rest =>
      rw [hf] at h
      injection h with hL
      have hmem : L ∈ best :: rest := by
        rcases foldl_pickLat_mem rest best with hm | hm
        · rw [hL] at hm
          rw [hm]
          exact List.mem_cons_self best rest
        · rw [hL] at hm
          exact List.mem_cons_of_mem best hm
      have hLf : L ∈ regions.filter (fun r => isRegionHealthy r) := by
        rw [hf]; exact hmem
      have hLmem := List.mem_filter.mp hLf
      refine ⟨hLmem.1, by simpa using hLmem.2, ?_⟩
      intro r hr hhr
      have hrf : r ∈ best :: rest := by
        rw [← hf]; exact List.mem_filter.mpr ⟨hr, by simpa using hhr⟩
      rw [← hL]
      rcases List.mem_cons.mp hrf with hrb | hrt
      · rw [hrb]
        exact foldl_pickLat_le_seed rest best
      · exact foldl_pickLat_min rest best r hrt

/-- Claim C3 is refuted at this input: a matched region (`regAz`, country
FR) is unhealthy and its fallback id `Z` resolves to no region, the
lowest-latency region `regB` is selected, but the decision's reason tag is
`'failover'` (the `fallback` flag was already set), not `'geo'`. -/
theorem route_latency_reason_counterexample :
    route [⟨"A", "Region A", "a-1", [oU], 1, ["FR"], some "Z"⟩, regB]
        (some "FR") 0 =
      Except.ok ⟨regB, some oH, Reason.failover, true⟩ ∧
    Reason.failover ≠ Reason.geo := by
  constructor
  · decide
  · decide

/-- Claim C3 (amended): when no region's country set contains the request
country, or the matched region is unhealthy and its fallback id resolves to
no region, `route` selects the region with the lowest average latency
(averaged over healthy origins, no healthy region strictly beats it) among
regions with at least one healthy origin; the reason tag is `'geo'` in the
no-country-match case but `'failover'` (with `fallback = true`) in the
unresolved-fallback case. -/
theorem route_latency_path (regions : List Region) (c : String) (u : ℚ) (L : Region)
    (hcase : findRegionByCountry regions c = none ∨
      ∃ R fid, findRegionByCountry regions c = some R ∧ isRegionHealthy R = false ∧
        R.fallback = some fid ∧ regionsGet regions fid = none)
    (hL : findLowestLatencyRegion regions = some L) :
    route regions (some c) u = Except.ok
      ⟨L, selectOrigin L u,
        if (findRegionByCountry regions c).isSome then Reason.failover else Reason.geo,
        (findRegionByCountry regions c).isSome⟩ ∧
    L ∈ regions ∧ isRegionHealthy L = true ∧
      ∀ r ∈ regions, isRegionHealthy r = true →
        latLt (getAverageLatency r) (getAverageLatency L) = false := by
  have hspec := findLowestLatencyRegion_spec regions L hL
  refine ⟨?_, hspec⟩
  rcases hcase with hnone | ⟨R, fid, hfind, hunhealthy, hfb, hget⟩
  · unfold route routeTarget
    simp [hnone, hL]
  · unfold route routeTarget
    simp [hfind, hunhealthy, hfb, hget, hL]

/-- Closed witness for the claim-C3 amended theorem: no region matches JP,
`regB` is the lone healthy region. -/
theorem route_latency_path_witness :
    (route [regA, regB] (some "JP") 0 = Except.ok
      ⟨regB, selectOrigin regB 0,
        if (findRegionByCountry [regA, regB] "JP").isSome then Reason.failover
        else Reason.geo,
        (findRegionByCountry [regA, regB] "JP").isSome⟩ ∧
    regB ∈ [regA, regB] ∧ isRegionHealthy regB = true ∧
      ∀ r ∈ [regA, regB], isRegionHealthy r = true →
        latLt (getAverageLatency r) (getAverageLatency regB) = false) :=
  route_latency_path [regA, regB] "JP" 0 regB (Or.inl (by decide)) (by decide)

/-- Folding the `totalWeight` reduce from any seed just shifts the sum. -/
theorem foldl_weight_shift (os : List Origin) :
    ∀ a : ℚ, os.foldl (fun sum o => sum + o.weight) a = a + totalWeight os := by
  induction os with
  | nil => intro a; simp [totalWeight]
  | cons o t ih =>
      intro a
      have h0 : totalWeight (o :: t) = (0 + o.weight) + totalWeight t := by
        show List.foldl _ _ _ = _
        rw [List.foldl_cons, ih]
      rw [List.foldl_cons, ih, h0]
      ring

/-- `totalWeight` adds the head's weight. -/
theorem totalWeight_cons (o : Origin) (t : List Origin) :
    totalWeight (o :: t) = o.weight + totalWeight t := by
  show List.foldl _ _ _ = _
  rw [List.foldl_cons, foldl_weight_shift]
  ring

/-- A sum of non-negative weights is non-negative. -/
theorem totalWeight_nonneg (os : List Origin) (hw : ∀ o ∈ os, 0 ≤ o.weight) :
    0 ≤ totalWeight os := by
  induction os with
  | nil => simp [totalWeight]
  | cons o t ih =>
      rw [totalWeight_cons]
      have h1 := hw o (List.mem_cons_self o t)
      have h2 := ih (fun x hx => hw x (List.mem_cons_of_mem o hx))
      linarith

/-- A sum of non-negative weights one of which is positive is positive. -/
theorem totalWeight_pos (os : List Origin) (hw : ∀ o ∈ os, 0 ≤ o.weight)
    (hex : ∃ o ∈ os, 0 < o.weight) : 0 < totalWeight os := by
  induction os with
  | nil => rcases hex with ⟨o, ho, _⟩; cases ho
  | cons o t ih =>
      rw [totalWeight_cons]
      rcases hex with ⟨p, hp, hpw⟩
      rcases List.mem_cons.mp hp with hpo | hpt
      · have h2 := totalWeight_nonneg t (fun x hx => hw x (List.mem_cons_of_mem o hx))
        rw [hpo] at hpw
        linarith
      · have h1 := hw o (List.mem_cons_self o t)
        have h2 := ih (fun x hx => hw x (List.mem_cons_of_mem o hx)) ⟨p, hpt, hpw⟩
        linarith

/-- The subtract-until-nonpositive loop, fed a strictly positive draw
strictly below the total weight of a non-negatively weighted list, returns
a member of the list whose weight is strictly positive (in particular it
never falls through the loop). -/
theorem weightedPick_pos (os : List Origin) (random : ℚ)
    (hw : ∀ o ∈ os, 0 ≤ o.weight) (h0 : 0 < random)
    (hlt : random < totalWeight os) :
    ∃ o, weightedPick os random = some o ∧ o ∈ os ∧ 0 < o.weight := by
  induction os generalizing random with
  | nil =>
      exfalso
      have : totalWeight ([] : List Origin) = 0 := by simp [totalWeight]
      rw [this] at hlt
      linarith
  | cons o t ih =>
      by_cases hsel : random - o.weight ≤ 0
      · refine ⟨o, ?_, List.mem_cons_self o t, ?_⟩
        · simp [weightedPick, hsel]
        · linarith
      · have hsel' : ¬ random - o.weight ≤ 0 := hsel
        have hlt' : random - o.weight < totalWeight t := by
          rw [totalWeight_cons] at hlt
          linarith
        rcases ih (random - o.weight)
            (fun x hx => hw x (List.mem_cons_of_mem o hx))
            (by linarith) hlt' with ⟨p, hpick, hmem, hpw⟩
        refine ⟨p, ?_, List.mem_cons_of_mem o hmem, hpw⟩
        simp [weightedPick, hsel', hpick]

/-- Claim C5 is refuted at this input: the healthy origins of `regW` are
`[oW0 (weight 0), oW5 (weight 5)]`, the draw `u = 0` lies in `[0, 1)` (so
the computed draw `0 * 5 = 0` lies in `[0, totalWeight)`), a positive-weight
healthy origin exists, yet the zero-weight origin is selected (its first
subtraction already leaves the remainder at `0 ≤ 0`). -/
theorem selectOrigin_zero_weight_counterexample :
    selectOrigin regW 0 = some oW0 ∧ oW0.weight = 0 ∧
    oW5 ∈ regW.origins ∧ oW5.healthy = true ∧ 0 < oW5.weight ∧
    ((0 : ℚ) ≤ 0 ∧ (0 : ℚ) < 1) := by
  refine ⟨?_, by decide, by decide, by decide, by decide, by norm_num⟩
  norm_num [selectOrigin, weightedPick, totalWeight, regW, oW0, oW5]

/-- Claim C5 (amended): for every region with at least two healthy origins,
non-negative weights, and a *strictly positive* uniform draw (computed draw
in `(0, totalWeight)`), the weighted loop — subtract each healthy origin's
weight in iteration order, choose the first origin leaving the remainder
`≤ 0` — terminates inside the loop on a healthy origin of strictly positive
weight; a zero-weight origin is never selected.  (At a draw of exactly `0`
the first healthy origin is selected even if its weight is `0`, refuting
the original `[0, totalWeight)` phrasing.) -/
theorem selectOrigin_positive_weight (r : Region) (u : ℚ)
    (hlen : 2 ≤ (r.origins.filter (fun o => o.healthy)).length)
    (hw : ∀ o ∈ r.origins, 0 ≤ o.weight)
    (hu0 : 0 < u) (hu1 : u < 1)
    (hex : ∃ o ∈ r.origins.filter (fun o => o.healthy), 0 < o.weight) :
    ∃ o, weightedPick (r.origins.filter (fun o => o.healthy))
          (u * totalWeight (r.origins.filter (fun o => o.healthy))) = some o ∧
      selectOrigin r u = some o ∧
      o ∈ r.origins ∧ o.healthy = true ∧ 0 < o.weight := by
  have hwf : ∀ o ∈ r.origins.filter (fun o => o.healthy), 0 ≤ o.weight :=
    fun o ho => hw o (List.mem_filter.mp ho).1
  have htw : 0 < totalWeight (r.origins.filter (fun o => o.healthy)) :=
    totalWeight_pos _ hwf hex
  have hrand0 : 0 < u * totalWeight (r.origins.filter (fun o => o.healthy)) :=
    mul_pos hu0 htw
  have hrand1 : u * totalWeight (r.origins.filter (fun o => o.healthy)) <
      totalWeight (r.origins.filter (fun o => o.healthy)) :=
    mul_lt_of_lt_one_left htw hu1
  rcases weightedPick_pos _ _ hwf hrand0 hrand1 with ⟨o, hpick, hmem, hpos⟩
  have hmem' := List.mem_filter.mp hmem
  refine ⟨o, hpick, ?_, hmem'.1, by simpa using hmem'.2, hpos⟩
  cases hf : r.origins.filter (fun o => o.healthy) with
  | nil => rw [hf] at hlen; simp at hlen
  | cons o1 rest =>
      cases rest with
      | nil => rw [hf] at hlen; simp at hlen
      | cons o2 rest2 =>
          rw [hf] at hpick
          simp only [selectOrigin, hf]
          rw [hpick]

/-- Closed witness for the claim-C5 amended theorem: draw `u = 1/2` on
`regW` selects an origin. -/
theorem selectOrigin_positive_weight_witness :
    (selectOrigin regW (1/2)).isSome = true := by
  rcases selectOrigin_positive_weight regW (1/2) (by decide) (by decide)
      (by norm_num) (by norm_num) ⟨oW5, by decide, by decide⟩ with ⟨o, _, hsel, _⟩
  rw [hsel]
  rfl

/-- Claim C8: `getCacheKey` is a pure deterministic function of
`(path, regionId)` — equal inputs yield equal keys — and for a fixed path,
distinct region ids yield distinct keys. -/
theorem getCacheKey_deterministic_and_region_injective :
    (∀ p p' r r' : String, p = p' → r = r' → getCacheKey p r = getCacheKey p' r') ∧
    (∀ p rA rB : String, rA ≠ rB → getCacheKey p rA ≠ getCacheKey p rB) := by
  constructor
  · intro p p' r r' hp hr
    rw [hp, hr]
  · intro p rA rB hne heq
    apply hne
    have hdata : ("cache:".data ++ rA.data ++ ":".data ++ p.data)
        = ("cache:".data ++ rB.data ++ ":".data ++ p.data) := by
      have h1 := congrArg String.data heq
      simpa [getCacheKey, String.data_append] using h1
    have h2 : rA.data ++ (":".data ++ p.data) = rB.data ++ (":".data ++ p.data) := by
      have h2' : "cache:".data ++ (rA.data ++ (":".data ++ p.data))
          = "cache:".data ++ (rB.data ++ (":".data ++ p.data)) := by
        simpa [List.append_assoc] using hdata
      exact List.append_cancel_left h2'
    have h3 : rA.data = rB.data := List.append_cancel_right h2
    cases rA; cases rB
    exact congrArg String.mk h3

/-- Closed witness for the hypothesis-bearing claim-C8 theorem. -/
theorem getCacheKey_region_injective_witness :
    getCacheKey "a.png" "us-east" ≠ getCacheKey "a.png" "eu-west" :=
  getCacheKey_deterministic_and_region_injective.2 "a.png" "us-east" "eu-west"
    (by decide)

/-- Claim C1 is refuted at this input: a single timeout/exception probe of
an origin with no recorded failures, as recorded by `performHealthChecks`,
leaves it with `consecutiveFailures = 1` but `healthy = false` — the
`catch` path marks the origin unhealthy immediately instead of tolerating
two consecutive failures, so `healthy == (consecutiveFailures < 3)` fails. -/
theorem health_debounce_counterexample :
    ((performHealthChecks (fun _ => ProbeOutcome.exn) 7 [regC]).1.map
        (fun r => r.origins.map (fun o => (o.healthy, o.consecutiveFailures))))
      = [[(false, 1)]] ∧
    ¬ ((false : Bool) = decide ((1 : Nat) < 3)) := by
  refine ⟨by decide, by decide⟩

/-- Claim C1 (amended): after a probe that produced a response (success or
non-success), the recorded origin satisfies
`healthy == (consecutiveFailures < 3)`; after a timeout/exception probe it
is marked unhealthy immediately (with the counter incremented), even while
`consecutiveFailures < 3`. -/
theorem probe_health_debounce (o : Origin) (l : ℚ) (now : Nat) :
    ((probeOrigin o (ProbeOutcome.ok l) now).healthy
        = decide ((probeOrigin o (ProbeOutcome.ok l) now).consecutiveFailures < 3)) ∧
    ((probeOrigin o (ProbeOutcome.notOk l) now).healthy
        = decide ((probeOrigin o (ProbeOutcome.notOk l) now).consecutiveFailures < 3)) ∧
    ((probeOrigin o ProbeOutcome.exn now).healthy = false ∧
      (probeOrigin o ProbeOutcome.exn now).consecutiveFailures
        = o.consecutiveFailures + 1) := by
  refine ⟨by simp [probeOrigin], by simp [probeOrigin], by simp [probeOrigin], rfl⟩

/-- The origin loop's counters, from an arbitrary starting accumulator:
`healthyCount` advances by the number of ok responses and `totalLatency`
by the latency of every responded probe. -/
theorem sweepOrigins_go (outcomes : String → ProbeOutcome) (now : Nat) :
    ∀ (os : List Origin) (acc : List Origin × Nat × ℚ),
      (os.foldl (sweepStep outcomes now) acc).2.1 = acc.2.1 + okCount outcomes os ∧
      (os.foldl (sweepStep outcomes now) acc).2.2
        = acc.2.2 + respondedLatencySum outcomes os := by
  intro os
  induction os with
  | nil => intro acc; simp [okCount, respondedLatencySum]
  | cons o t ih =>
      intro acc
      rw [List.foldl_cons]
      rcases ih (sweepStep outcomes now acc o) with ⟨ih1, ih2⟩
      constructor
      · rw [ih1]
        cases hoc : outcomes o.url <;>
          simp [sweepStep, okCount, hoc] <;> omega
      · rw [ih2]
        cases hoc : outcomes o.url <;>
          simp [sweepStep, respondedLatencySum, hoc] <;> ring


/-- Claim C7 (amended): the per-region summary's `avgLatencyMs` is the sum
of the measured latencies of every origin whose probe produced a response
(ok or not — not only the origins that end the sweep healthy), divided by
the number of *successful* probes, and 0 when no probe succeeded;
`availableOrigins` counts the successful probes. -/
theorem sweep_avg_latency_characterization (outcomes : String → ProbeOutcome)
    (now : Nat) (r : Region) :
    (sweepRegion outcomes now r).2.avgLatencyMs
      = (if 0 < okCount outcomes r.origins then
          respondedLatencySum outcomes r.origins / (okCount outcomes r.origins : ℚ)
        else 0) ∧
    (sweepRegion outcomes now r).2.availableOrigins = okCount outcomes r.origins := by
  have h := sweepOrigins_go outcomes now r.origins ([], 0, 0)
  rcases h with ⟨h1, h2⟩
  have h1' : (sweepOrigins outcomes now r.origins).2.1 = okCount outcomes r.origins := by
    rw [sweepOrigins, h1]; ring
  have h2' : (sweepOrigins outcomes now r.origins).2.2
      = respondedLatencySum outcomes r.origins := by
    rw [sweepOrigins, h2]; ring
  constructor
  · show (if 0 < (sweepOrigins outcomes now r.origins).2.1 then
        (sweepOrigins outcomes now r.origins).2.2
          / ((sweepOrigins outcomes now r.origins).2.1 : ℚ)
      else 0) = _
    rw [h1', h2']
  · show (sweepOrigins outcomes now r.origins).2.1 = _
    exact h1'

/-- Claim C7 is refuted at this input: in `regG` the probe of `oG1`
succeeds with latency 10 and the probe of `oG2` (already at 2 consecutive
failures) returns non-ok with latency 100, leaving `oG2` unhealthy.  The
summary reports `avgLatencyMs = (10 + 100) / 1 = 110`, while the average
latency over the origins left healthy by the sweep is 10 — the non-ok
probe's latency was counted even though its origin was found unhealthy. -/
theorem health_avg_counterexample :
    (sweepRegion outcomesG 7 regG).2.avgLatencyMs = 110 ∧
    getAverageLatency (sweepRegion outcomesG 7 regG).1 = some 10 ∧
    (110 : ℚ) ≠ 10 := by
  have h1 : outcomesG "http://g1" = ProbeOutcome.ok 10 := by decide
  have h2 : outcomesG "http://g2" = ProbeOutcome.notOk 100 := by decide
  refine ⟨?_, ?_, by norm_num⟩
  · norm_num [sweepRegion, sweepOrigins, sweepStep, probeOrigin,
      regG, oG1, oG2, h1, h2, List.foldl_cons]
  · norm_num [sweepRegion, sweepOrigins, sweepStep, probeOrigin,
      getAverageLatency, regG, oG1, oG2, h1, h2, List.foldl_cons]

/-- The final status assignment of `runReplication` is `failed` exactly
when an error was recorded. -/
theorem statusOf_failed_iff (errs : List String) :
    ((if 0 < errs.length then JobStatus.failed else JobStatus.completed)
      = JobStatus.failed) ↔ errs ≠ [] := by
  cases errs <;> simp

/-- Claim C6: in general a finished replication run has status `failed`
iff at least one error was recorded, its completion timestamp is stamped,
and it is persisted with a 7-day TTL; and the specific job with paths
`[a, b]`, targets `[t1, t2]`, every source present and exactly the write
of `b` to `t2` failing, ends `failed` with progress 100 and exactly one
error naming that path and target. -/
theorem replication_terminal_state :
    (∀ (id src : String) (targetRegions paths : List String)
        (sourceHas : String → Bool) (putRes : String → Option String) (now : Nat),
      ((runReplication id src targetRegions paths sourceHas putRes now).status
          = JobStatus.failed
        ↔ (runReplication id src targetRegions paths sourceHas putRes now).errors ≠ []) ∧
      (runReplication id src targetRegions paths sourceHas putRes now).completedAt
        = some now ∧
      (runReplication id src targetRegions paths sourceHas putRes now).persistTtl
        = 86400 * 7) ∧
    ((runReplication "job1" "src" ["t1", "t2"] ["a", "b"]
        (fun _ => true) putFailT2b 5).status = JobStatus.failed ∧
      (runReplication "job1" "src" ["t1", "t2"] ["a", "b"]
        (fun _ => true) putFailT2b 5).progress = 100 ∧
      (runReplication "job1" "src" ["t1", "t2"] ["a", "b"]
        (fun _ => true) putFailT2b 5).errors
        = ["Failed to replicate b to t2: boom"]) := by
  refine ⟨fun id src ts ps sh pr now => ⟨statusOf_failed_iff _, rfl, rfl⟩, ?_, ?_, ?_⟩
  · decide
  · norm_num [runReplication, replPathStep, replPutStep, jsRound, putFailT2b]
  · decide

/-- Inner target loop of `runReplication`: `completed` advances by one per
target, and once at least one write happened the recorded `progress` is
`round(completed / totalPaths * 100)` for the final counter value. -/
theorem replInner_char (putRes : String → Option String) (tp : Nat) (path : String) :
    ∀ (targets : List String) (acc : RepAcc),
      (targets.foldl (replPutStep putRes tp path) acc).completed
        = acc.completed + targets.length ∧
      (targets ≠ [] →
        (targets.foldl (replPutStep putRes tp path) acc).progress
          = jsRound
              ((((targets.foldl (replPutStep putRes tp path) acc).completed : Nat) : ℚ)
                / (tp : ℚ) * 100)) := by
  intro targets
  induction targets with
  | nil => intro acc; exact ⟨by simp, fun h => absurd rfl h⟩
  | cons t ts ih =>
      intro acc
      rw [List.foldl_cons]
      rcases ih (replPutStep putRes tp path acc t) with ⟨ih1, ih2⟩
      have hstep : (replPutStep putRes tp path acc t).completed = acc.completed + 1 := rfl
      constructor
      · rw [ih1, hstep]
        simp
        omega
      · intro _
        cases ts with
        | nil =>
            simp only [List.foldl_nil]
            show jsRound (((acc.completed + 1 : Nat) : ℚ) / (tp : ℚ) * 100) = _
            rw [hstep]
        | cons t2 ts2 =>
            exact ih2 (by simp)

/-- `replPutStep` never removes recorded errors. -/
theorem replPutStep_errors_le (putRes : String → Option String) (tp : Nat)
    (path target : String) (acc : RepAcc) :
    acc.errors.length ≤ (replPutStep putRes tp path acc target).errors.length := by
  unfold replPutStep
  cases putRes (target ++ "/" ++ path) <;> simp

/-- The inner target loop never removes recorded errors. -/
theorem replInner_errors_le (putRes : String → Option String) (tp : Nat) (path : String) :
    ∀ (targets : List String) (acc : RepAcc),
      acc.errors.length ≤ (targets.foldl (replPutStep putRes tp path) acc).errors.length := by
  intro targets
  induction targets with
  | nil => intro acc; simp
  | cons t ts ih =>
      intro acc
      rw [List.foldl_cons]
      exact le_trans (replPutStep_errors_le putRes tp path t acc) (ih _)

/-- The outer path loop never removes recorded errors. -/
theorem replOuter_errors_le (sourceHas : String → Bool) (putRes : String → Option String)
    (src : String) (targets : List String) (tp : Nat) :
    ∀ (paths : List String) (acc : RepAcc),
      acc.errors.length
        ≤ (paths.foldl (replPathStep sourceHas putRes src targets tp) acc).errors.length := by
  intro paths
  induction paths with
  | nil => intro acc; simp
  | cons q rest ih =>
      intro acc
      rw [List.foldl_cons]
      refine le_trans ?_ (ih (replPathStep sourceHas putRes src targets tp acc q))
      unfold replPathStep
      by_cases h : sourceHas (src ++ "/" ++ q) = true
      · rw [if_pos h]
        exact replInner_errors_le putRes tp q targets acc
      · rw [if_neg h]
        simp

/-- A path whose source is absent leaves the run with at least one
recorded error. -/
theorem replRun_missing_error (sourceHas : String → Bool) (putRes : String → Option String)
    (src : String) (targets : List String) (tp : Nat) (p : String)
    (hmiss : sourceHas (src ++ "/" ++ p) = false) :
    ∀ (paths : List String) (acc : RepAcc), p ∈ paths →
      0 < (paths.foldl (replPathStep sourceHas putRes src targets tp) acc).errors.length := by
  intro paths
  induction paths with
  | nil => intro acc hp; cases hp
  | cons q rest ih =>
      intro acc hp
      rw [List.foldl_cons]
      rcases List.mem_cons.mp hp with hpq | hprest
      · have hq : sourceHas (src ++ "/" ++ q) = false := by rw [← hpq]; exact hmiss
        have hacc : 0 < (replPathStep sourceHas putRes src targets tp acc q).errors.length := by
          unfold replPathStep
          rw [hq]
          simp
        exact lt_of_lt_of_le hacc
          (replOuter_errors_le sourceHas putRes src targets tp rest _)
      · exact ih _ hprest

/-- Outer path loop of `runReplication`: starting from a state satisfying
the progress invariant, `completed` advances by the number of targets for
every path whose source exists, and the final `progress` is 0 if no write
ever happened and `round(completed / totalPaths * 100)` otherwise. -/
theorem replRun_char (sourceHas : String → Bool) (putRes : String → Option String)
    (src : String) (targets : List String) (tp : Nat) (ht : targets ≠ []) :
    ∀ (paths : List String) (acc : RepAcc),
      acc.progress = (if acc.completed = 0 then (0 : ℤ)
        else jsRound ((acc.completed : ℚ) / (tp : ℚ) * 100)) →
      (paths.foldl (replPathStep sourceHas putRes src targets tp) acc).completed
        = acc.completed
          + (paths.filter (fun p => sourceHas (src ++ "/" ++ p))).length * targets.length ∧
      (paths.foldl (replPathStep sourceHas putRes src targets tp) acc).progress
        = (if (paths.foldl (replPathStep sourceHas putRes src targets tp) acc).completed = 0
           then (0 : ℤ)
           else jsRound
            (((paths.foldl (replPathStep sourceHas putRes src targets tp) acc).completed : ℚ)
              / (tp : ℚ) * 100)) := by
  intro paths
  induction paths with
  | nil => intro acc hinv; exact ⟨by simp, by simpa using hinv⟩
  | cons q rest ih =>
      intro acc hinv
      rw [List.foldl_cons]
      by_cases hq : sourceHas (src ++ "/" ++ q) = true
      · have hstep : replPathStep sourceHas putRes src targets tp acc q
            = targets.foldl (replPutStep putRes tp q) acc := by
          unfold replPathStep; rw [if_pos hq]
        rcases replInner_char putRes tp q targets acc with ⟨hic, hip⟩
        have hcpos : 0 < (targets.foldl (replPutStep putRes tp q) acc).completed := by
          rw [hic]
          have : targets.length ≠ 0 := fun h => ht (List.length_eq_zero.mp h)
          omega
        have hinv2 : (replPathStep sourceHas putRes src targets tp acc q).progress
            = (if (replPathStep sourceHas putRes src targets tp acc q).completed = 0
               then (0 : ℤ)
               else jsRound
                (((replPathStep sourceHas putRes src targets tp acc q).completed : ℚ)
                  / (tp : ℚ) * 100)) := by
          rw [hstep, if_neg (by omega)]
          exact hip ht
        rcases ih (replPathStep sourceHas putRes src targets tp acc q) hinv2 with ⟨h1, h2⟩
        refine ⟨?_, h2⟩
        rw [h1, hstep, hic, List.filter_cons_of_pos (by simpa using hq)]
        simp [Nat.add_mul]
        omega
      · have hq' : sourceHas (src ++ "/" ++ q) = false := by
          cases h : sourceHas (src ++ "/" ++ q)
          · rfl
          · exact absurd h hq
        have hstep : (replPathStep sourceHas putRes src targets tp acc q).completed
              = acc.completed ∧
            (replPathStep sourceHas putRes src targets tp acc q).progress
              = acc.progress := by
          unfold replPathStep
          rw [hq']
          exact ⟨rfl, rfl⟩
        have hinv2 : (replPathStep sourceHas putRes src targets tp acc q).progress
            = (if (replPathStep sourceHas putRes src targets tp acc q).completed = 0
               then (0 : ℤ)
               else jsRound
                (((replPathStep sourceHas putRes src targets tp acc q).completed : ℚ)
                  / (tp : ℚ) * 100)) := by
          rw [hstep.1, hstep.2]
          exact hinv
        rcases ih (replPathStep sourceHas putRes src targets tp acc q) hinv2 with ⟨h1, h2⟩
        refine ⟨?_, h2⟩
        rw [h1, hstep.1, List.filter_cons_of_neg (by simpa using hq')]

/-- A list with a member failing the predicate filters to a strictly
shorter list. -/
theorem length_filter_lt_of_mem_neg {α : Type} (pred : α → Bool) :
    ∀ (l : List α) (p : α), p ∈ l → pred p = false →
      (l.filter pred).length < l.length := by
  intro l
  induction l with
  | nil => intro p hp _; cases hp
  | cons q rest ih =>
      intro p hp hpred
      rcases List.mem_cons.mp hp with hpq | hpr
      · have hq : pred q = false := by rw [← hpq]; exact hpred
        rw [List.filter_cons_of_neg (by simp [hq])]
        have h2 := List.length_filter_le pred rest
        simp
        omega
      · by_cases hq : pred q = true
        · rw [List.filter_cons_of_pos (by simpa using hq)]
          have h2 := ih p hpr hpred
          simp
          omega
        · rw [List.filter_cons_of_neg (by simpa using hq)]
          have h2 := ih p hpr hpred
          simp
          omega

/-- Claim C10 (amended): a path whose source object is absent is skipped
without advancing the `completed` counter, so a job with at least one
missing source path and at least one target region terminates with status
`failed`, and its final progress is strictly below 100 *provided the job
has at most 199 paths* (with 200 or more paths the rounding
`round(completed / total * 100)` can reach 100 despite the skipped path);
a job whose every source path is missing terminates with progress 0. -/
theorem replication_missing_source_progress (id src : String)
    (targetRegions paths : List String) (sourceHas : String → Bool)
    (putRes : String → Option String) (now : Nat) (p : String)
    (hp : p ∈ paths) (hmiss : sourceHas (src ++ "/" ++ p) = false)
    (ht : targetRegions ≠ []) :
    (runReplication id src targetRegions paths sourceHas putRes now).status
      = JobStatus.failed ∧
    (paths.length ≤ 199 →
      (runReplication id src targetRegions paths sourceHas putRes now).progress < 100) ∧
    ((∀ q ∈ paths, sourceHas (src ++ "/" ++ q) = false) →
      (runReplication id src targetRegions paths sourceHas putRes now).progress = 0) := by
  have hre : (runReplication id src targetRegions paths sourceHas putRes now).progress
      = (paths.foldl
          (replPathStep sourceHas putRes src targetRegions
            (paths.length * targetRegions.length)) ⟨0, 0, []⟩).progress := rfl
  rcases replRun_char sourceHas putRes src targetRegions
      (paths.length * targetRegions.length) ht paths ⟨0, 0, []⟩ (by simp) with ⟨hc, hprog⟩
  refine ⟨?_, ?_, ?_⟩
  · have herr := replRun_missing_error sourceHas putRes src targetRegions
      (paths.length * targetRegions.length) p hmiss paths ⟨0, 0, []⟩ hp
    show (if 0 < (paths.foldl
          (replPathStep sourceHas putRes src targetRegions
            (paths.length * targetRegions.length)) ⟨0, 0, []⟩).errors.length
        then JobStatus.failed else JobStatus.completed) = JobStatus.failed
    rw [if_pos herr]
  · intro h199
    rw [hre, hprog]
    by_cases hc0 : (paths.foldl
        (replPathStep sourceHas putRes src targetRegions
          (paths.length * targetRegions.length)) ⟨0, 0, []⟩).completed = 0
    · rw [if_pos hc0]
      norm_num
    · rw [if_neg hc0]
      have hn : (paths.filter (fun q => sourceHas (src ++ "/" ++ q))).length
          < paths.length :=
        length_filter_lt_of_mem_neg _ paths p hp hmiss
    -- abbreviations for the three counts
      have hT : 1 ≤ targetRegions.length := by
        cases hl : targetRegions.length with
        | zero => exact absurd (List.length_eq_zero.mp hl) ht
        | succ k => omega
      have hP : 1 ≤ paths.length := by
        cases paths with
        | nil => cases hp
        | cons a b => simp
      have hcQ : ((paths.foldl
            (replPathStep sourceHas putRes src targetRegions
              (paths.length * targetRegions.length)) ⟨0, 0, []⟩).completed : ℚ)
          = ((paths.filter (fun q => sourceHas (src ++ "/" ++ q))).length : ℚ)
            * (targetRegions.length : ℚ) := by
        rw [hc]
        push_cast
        ring
      unfold jsRound
      rw [Int.floor_lt]
      rw [hcQ]
      push_cast
      have hTQ : (0 : ℚ) < (targetRegions.length : ℚ) := by
        have := hT
        positivity
      have hPQ : (0 : ℚ) < (paths.length : ℚ) := by
        have := hP
        positivity
      rw [mul_div_mul_right _ _ (ne_of_gt hTQ), div_mul_eq_mul_div]
      have hn1 : (paths.filter (fun q => sourceHas (src ++ "/" ++ q))).length + 1
          ≤ paths.length := hn
      have hnQ : ((paths.filter (fun q => sourceHas (src ++ "/" ++ q))).length : ℚ) + 1
          ≤ (paths.length : ℚ) := by
        exact_mod_cast hn1
      have h199Q : (paths.length : ℚ) ≤ 199 := by
        exact_mod_cast h199
      have hdiv : ((paths.filter (fun q => sourceHas (src ++ "/" ++ q))).length : ℚ) * 100
            / (paths.length : ℚ) < 199 / 2 := by
        rw [div_lt_iff₀ hPQ]
        nlinarith
      linarith
  · intro hall
    have hfe : paths.filter (fun q => sourceHas (src ++ "/" ++ q)) = [] := by
      rw [List.filter_eq_nil_iff]
      intro q hq
      simp [hall q hq]
    have hc0 : (paths.foldl
        (replPathStep sourceHas putRes src targetRegions
          (paths.length * targetRegions.length)) ⟨0, 0, []⟩).completed = 0 := by
      rw [hc, hfe]
      simp
    rw [hre, hprog, if_pos hc0]

set_option maxRecDepth 40000 in
/-- Claim C10 is refuted at this input: a 200-path job (`x` plus 199 copies
of `y`) with one target region, whose only missing source is `x`, ends
`failed` with the skipped path recorded — yet its final progress is
`round(199/200 × 100) = round(99.5) = 100`, not strictly below 100. -/
theorem replication_progress_100_counterexample :
    (runReplication "job2" "src" ["t"] cexPaths sourceHasNotX
        (fun _ => none) 5).status = JobStatus.failed ∧
    (runReplication "job2" "src" ["t"] cexPaths sourceHasNotX
        (fun _ => none) 5).errors = ["Source not found: x"] ∧
    (runReplication "job2" "src" ["t"] cexPaths sourceHasNotX
        (fun _ => none) 5).progress = 100 ∧
    "x" ∈ cexPaths ∧ sourceHasNotX ("src" ++ "/" ++ "x") = false ∧
    (["t"] : List String) ≠ [] ∧ ¬ ((100 : ℤ) < 100) := by
  refine ⟨by decide, by decide, ?_, by decide, by decide, by decide, by decide⟩
  have hre : (runReplication "job2" "src" ["t"] cexPaths sourceHasNotX
        (fun _ => none) 5).progress
      = (cexPaths.foldl
          (replPathStep sourceHasNotX (fun _ => none) "src" ["t"]
            (cexPaths.length * (["t"] : List String).length)) ⟨0, 0, []⟩).progress := rfl
  rcases replRun_char sourceHasNotX (fun _ => none) "src" ["t"]
      (cexPaths.length * (["t"] : List String).length) (by decide) cexPaths
      ⟨0, 0, []⟩ (by simp) with ⟨hc, hprog⟩
  have hfl : (cexPaths.filter (fun q => sourceHasNotX ("src" ++ "/" ++ q))).length
      = 199 := by decide
  have hlen : cexPaths.length = 200 := by decide
  have hc' : (cexPaths.foldl
      (replPathStep sourceHasNotX (fun _ => none) "src" ["t"]
        (cexPaths.length * (["t"] : List String).length)) ⟨0, 0, []⟩).completed
      = 199 := by
    rw [hc, hfl]
    simp
  rw [hre, hprog, if_neg (by omega), hc']
  unfold jsRound
  have harg : ((199 : Nat) : ℚ) / ((cexPaths.length * (["t"] : List String).length : Nat) : ℚ)
      * 100 + 1 / 2 = ((100 : ℤ) : ℚ) := by
    rw [hlen]
    norm_num
  rw [harg, Int.floor_intCast]

/-- Closed witness for the claim-C10 amended theorem: paths `[a, b]` with
`a` missing and one target end `failed` with progress below 100. -/
theorem replication_missing_source_progress_witness :
    (runReplication "w" "src" ["t"] ["a", "b"] sourceHasOnlyB
        (fun _ => none) 3).status = JobStatus.failed ∧
    (runReplication "w" "src" ["t"] ["a", "b"] sourceHasOnlyB
        (fun _ => none) 3).progress < 100 := by
  rcases replication_missing_source_progress "w" "src" ["t"] ["a", "b"]
      sourceHasOnlyB (fun _ => none) 3 "a" (by decide) (by decide)
      (by decide) with ⟨h1, h2, _⟩
  exact ⟨h1, h2 (by decide)⟩

end RoadCDN
